import Mathlib

/-!
# Verification of the kag_mini knowledge-graph pipeline

Shallow embedding of the core components of the repository:

* `KnowledgeGraph` (src/modules/graph_processing/knowledge_graph.py) — an
  in-memory directed graph (`networkx.DiGraph`) of string-named entities with
  attribute dictionaries on nodes and edges, plus derived statistics.
* `SemanticChunker.semantic_chunk_text`
  (src/modules/semantic_processing/semantic_chunker.py) — similarity-driven
  sentence chunking.
* `PromptEnhancer` (src/modules/semantic_processing/prompt_enhancer.py) —
  RAG/KAG prompt construction.
* `TripletExtractor.extract_triplets_with_context`
  (src/modules/doc_extraction/triplet_extractor.py) — JSON-region parsing of
  raw completions.
* the multi-level extraction pipeline of `src/test_pdf_extraction.py`.

Python dictionaries are modelled as insertion-ordered association lists with
last-write-wins update; `networkx.DiGraph` node/edge collections are modelled
as insertion-ordered lists keyed by node name resp. (source, target) pair
(a `DiGraph` holds at most one edge per ordered pair: `add_edge` on an
existing pair merges the attribute dictionary instead of adding a parallel
edge).  External capabilities (the LLM completion, the embedding model and
`json.loads`) are passed in as explicit function parameters.
-/

/-- A Python attribute value as it occurs on nodes/edges of this code base:
a string, a number (`float`/`int`, modelled as `ℚ`), or `None`. -/
inductive PVal where
  | pstr (s : String)
  | pnum (q : ℚ)
  | pnone
  deriving DecidableEq, Repr

/-- A Python `dict` with string keys, as an insertion-ordered association
list.  Reachable dictionaries have pairwise distinct keys. -/
abbrev AttrDict := List (String × PVal)

/-- `d[k] = v`: an existing key keeps its position and gets the new value, a
new key is appended (Python dict update semantics). -/
def dictSet (d : AttrDict) (k : String) (v : PVal) : AttrDict :=
  if d.any (fun p => p.1 == k) then
    d.map (fun p => if p.1 = k then (k, v) else p)
  else
    d ++ [(k, v)]

/-- `d.update(e)` for two dicts: fold `dictSet` over the entries of `e`. -/
def dictMerge (d e : AttrDict) : AttrDict :=
  e.foldl (fun acc p => dictSet acc p.1 p.2) d

/-- `d.get(k)`, `none` when the key is absent. -/
def dictGet? (d : AttrDict) (k : String) : Option PVal :=
  (d.find? (fun p => p.1 == k)).map Prod.snd

/-- The `networkx.DiGraph` underlying `KnowledgeGraph`: insertion-ordered
node list (name, attribute dict) and insertion-ordered edge list
(source, target, attribute dict).  At most one edge per ordered pair. -/
structure DiGraph where
  nodes : List (String × AttrDict)
  edges : List (String × String × AttrDict)
  deriving DecidableEq, Repr

/-- The empty graph (`nx.DiGraph()`). -/
def DiGraph.emptyGraph : DiGraph := ⟨[], []⟩

/-- The node-name list, in insertion order. -/
def DiGraph.nodeNames (g : DiGraph) : List String := g.nodes.map Prod.fst

/-- `node in self.graph.nodes`. -/
abbrev DiGraph.hasNode (g : DiGraph) (s : String) : Prop := s ∈ g.nodeNames

/-- `self.graph.add_node(s, **attrs)`: a new node is appended, an existing
node has the attributes merged in. -/
def DiGraph.addNode (g : DiGraph) (s : String) (attrs : AttrDict) : DiGraph :=
  if g.hasNode s then
    { g with nodes := g.nodes.map (fun p => if p.1 = s then (p.1, dictMerge p.2 attrs) else p) }
  else
    { g with nodes := g.nodes ++ [(s, attrs)] }

/-- The ordered (source, target) pairs of the edge list. -/
def DiGraph.edgeKeys (g : DiGraph) : List (String × String) :=
  g.edges.map (fun e => (e.1, e.2.1))

/-- `self.graph.has_edge(u, v)`. -/
abbrev DiGraph.hasEdge (g : DiGraph) (u v : String) : Prop := (u, v) ∈ g.edgeKeys

/-- `self.graph.get_edge_data(u, v)`: the attribute dict of the (unique)
edge u→v, `[]` when the edge is absent. -/
def DiGraph.getEdgeData (g : DiGraph) (u v : String) : AttrDict :=
  ((g.edges.find? (fun e => e.1 == u && e.2.1 == v)).map (fun e => e.2.2)).getD []

/-- `self.graph.add_edge(u, v, **attrs)` on a `DiGraph`: missing endpoint
nodes are created (with empty attributes); if the edge already exists its
attribute dict is updated in place — no parallel edge is ever created. -/
def DiGraph.addEdge (g : DiGraph) (u v : String) (attrs : AttrDict) : DiGraph :=
  let g1 := if g.hasNode u then g else g.addNode u []
  let g2 := if g1.hasNode v then g1 else g1.addNode v []
  if g2.hasEdge u v then
    let merged := g2.edges.map fun e =>
      if e.1 = u ∧ e.2.1 = v then (u, v, dictMerge e.2.2 attrs) else e
    { g2 with edges := merged }
  else
    { g2 with edges := g2.edges ++ [(u, v, attrs)] }

/-- `self.graph.number_of_nodes()`. -/
def DiGraph.numberOfNodes (g : DiGraph) : ℕ := g.nodes.length

/-- `self.graph.number_of_edges()`. -/
def DiGraph.numberOfEdges (g : DiGraph) : ℕ := g.edges.length

/-- The `stats` dictionary of `KnowledgeGraph`.  `relation_types` is a Python
set, modelled as a duplicate-free list. -/
structure Stats where
  node_count : ℕ
  edge_count : ℕ
  subject_count : ℕ
  object_count : ℕ
  relation_types : List String
  deriving DecidableEq, Repr

/-- Set insertion (`set.add`): no-op on an already present element. -/
def setInsert (l : List String) (r : String) : List String :=
  if r ∈ l then l else l ++ [r]

/-- The `KnowledgeGraph` class state: the graph plus its stats dictionary. -/
structure KnowledgeGraph where
  graph : DiGraph
  stats : Stats
  deriving DecidableEq, Repr

/-- `KnowledgeGraph.__init__` (lines 14–31): empty graph, zeroed stats. -/
def KnowledgeGraph.emptyKG : KnowledgeGraph :=
  ⟨DiGraph.emptyGraph, ⟨0, 0, 0, 0, []⟩⟩

/-- Lines 52–55 of `add_triplet`: `edge_props = {'relation': relation}`
followed by `edge_props.update(properties)` guarded by `if properties:`
(both `None` and `{}` are falsy in Python; both are modelled by `[]`). -/
def edgeProps (relation : String) (properties : AttrDict) : AttrDict :=
  if properties ≠ [] then dictMerge [("relation", .pstr relation)] properties
  else [("relation", .pstr relation)]

/-- `KnowledgeGraph.add_triplet` (lines 33–63): insert missing subject/object
nodes with a role-typed attribute (bumping the matching role counter), build
`edge_props = {'relation': relation} ∪ properties`, add the edge, then
refresh `node_count`/`edge_count` and add `relation` to `relation_types`. -/
def KnowledgeGraph.add_triplet (kg : KnowledgeGraph)
    (subject relation obj : String) (properties : AttrDict := []) : KnowledgeGraph :=
  let g1 := if kg.graph.hasNode subject then kg.graph
            else kg.graph.addNode subject [("type", .pstr "subject")]
  let sc := if kg.graph.hasNode subject then kg.stats.subject_count
            else kg.stats.subject_count + 1
  let g2 := if g1.hasNode obj then g1 else g1.addNode obj [("type", .pstr "object")]
  let oc := if g1.hasNode obj then kg.stats.object_count else kg.stats.object_count + 1
  let g3 := g2.addEdge subject obj (edgeProps relation properties)
  { graph := g3,
    stats := { node_count := g3.numberOfNodes,
               edge_count := g3.numberOfEdges,
               subject_count := sc,
               object_count := oc,
               relation_types := setInsert kg.stats.relation_types relation } }

/-- `KnowledgeGraph.get_stats` (lines 213–228): refresh `node_count` and
`edge_count` from the graph, return a copy of the stats. -/
def KnowledgeGraph.get_stats (kg : KnowledgeGraph) : Stats :=
  { kg.stats with node_count := kg.graph.numberOfNodes,
                  edge_count := kg.graph.numberOfEdges }

/-- `KnowledgeGraph.clear` (lines 230–241). -/
def KnowledgeGraph.clear (_kg : KnowledgeGraph) : KnowledgeGraph :=
  KnowledgeGraph.emptyKG

/-- One `add_triplet` call's arguments. -/
structure TripletIn where
  subject : String
  relation : String
  obj : String
  props : AttrDict
  deriving DecidableEq, Repr

/-- Run a sequence of `add_triplet` calls. -/
def applyTriplets : KnowledgeGraph → List TripletIn → KnowledgeGraph
  | kg, [] => kg
  | kg, t :: ts => applyTriplets (kg.add_triplet t.subject t.relation t.obj t.props) ts

/-! ## Generic list-as-set helpers -/

/-- Append an element unless it is already present (how node names, edge
keys and relation types grow). -/
def insertNew {α : Type} [DecidableEq α] (l : List α) (a : α) : List α :=
  if a ∈ l then l else l ++ [a]

theorem mem_insertNew {α : Type} [DecidableEq α] (l : List α) (a b : α) :
    b ∈ insertNew l a ↔ b ∈ l ∨ b = a := by
  unfold insertNew
  split <;> rename_i h
  · constructor
    · exact fun hb => Or.inl hb
    · rintro (hb | rfl) <;> assumption
  · simp [List.mem_append]

theorem self_mem_insertNew {α : Type} [DecidableEq α] (l : List α) (a : α) :
    a ∈ insertNew l a := by
  rw [mem_insertNew]; exact Or.inr rfl

theorem insertNew_nodup {α : Type} [DecidableEq α] (l : List α) (a : α)
    (h : l.Nodup) : (insertNew l a).Nodup := by
  unfold insertNew
  split <;> rename_i ha
  · exact h
  · simpa [List.nodup_append] using ⟨h, ha⟩

theorem toFinset_insertNew {α : Type} [DecidableEq α] (l : List α) (a : α) :
    (insertNew l a).toFinset = insert a l.toFinset := by
  apply Finset.ext
  intro x
  simp [mem_insertNew, or_comm, eq_comm]

/-! ## Structure of `add_triplet` on node names and edge keys -/

theorem edges_addNode (g : DiGraph) (s : String) (a : AttrDict) :
    (g.addNode s a).edges = g.edges := by
  unfold DiGraph.addNode; split <;> rfl

theorem nodeNames_addNode (g : DiGraph) (s : String) (a : AttrDict) :
    (g.addNode s a).nodeNames = insertNew g.nodeNames s := by
  unfold DiGraph.addNode insertNew
  by_cases h : g.hasNode s
  · rw [if_pos h, if_pos h]
    show (g.nodes.map _).map Prod.fst = g.nodes.map Prod.fst
    rw [List.map_map]
    apply List.map_congr_left
    intro p _
    by_cases hp : p.1 = s <;> simp [hp]
  · rw [if_neg h, if_neg h]
    show (g.nodes ++ [(s, a)]).map Prod.fst = g.nodes.map Prod.fst ++ [s]
    simp

theorem hasNode_addNode (g : DiGraph) (s t : String) (a : AttrDict) :
    (g.addNode s a).hasNode t ↔ g.hasNode t ∨ t = s := by
  show t ∈ (g.addNode s a).nodeNames ↔ _
  rw [nodeNames_addNode, mem_insertNew]

/-- The graph after `if subject not in self.graph.nodes: self.graph.add_node(...)`. -/
def ensureNode (g : DiGraph) (s : String) (a : AttrDict) : DiGraph :=
  if g.hasNode s then g else g.addNode s a

theorem nodeNames_ensureNode (g : DiGraph) (s : String) (a : AttrDict) :
    (ensureNode g s a).nodeNames = insertNew g.nodeNames s := by
  unfold ensureNode insertNew
  by_cases h : g.hasNode s
  · rw [if_pos h, if_pos h]
  · rw [if_neg h, nodeNames_addNode]
    unfold insertNew
    rw [if_neg h]

theorem edges_ensureNode (g : DiGraph) (s : String) (a : AttrDict) :
    (ensureNode g s a).edges = g.edges := by
  unfold ensureNode
  split
  · rfl
  · exact edges_addNode g s a

theorem hasNode_ensureNode_self (g : DiGraph) (s : String) (a : AttrDict) :
    (ensureNode g s a).hasNode s := by
  show s ∈ (ensureNode g s a).nodeNames
  rw [nodeNames_ensureNode]
  exact self_mem_insertNew _ _

theorem hasNode_ensureNode_mono (g : DiGraph) (s t : String) (a : AttrDict)
    (h : g.hasNode t) : (ensureNode g s a).hasNode t := by
  show t ∈ (ensureNode g s a).nodeNames
  rw [nodeNames_ensureNode, mem_insertNew]
  exact Or.inl h

theorem nodeNames_addEdge (g : DiGraph) (u v : String) (attrs : AttrDict)
    (hu : g.hasNode u) (hv : g.hasNode v) :
    (g.addEdge u v attrs).nodeNames = g.nodeNames := by
  show (DiGraph.addEdge g u v attrs).nodeNames = _
  unfold DiGraph.addEdge
  simp only [if_pos hu, if_pos hv]
  split <;> rfl

theorem edgeKeys_addEdge (g : DiGraph) (u v : String) (attrs : AttrDict)
    (hu : g.hasNode u) (hv : g.hasNode v) :
    (g.addEdge u v attrs).edgeKeys = insertNew g.edgeKeys (u, v) := by
  unfold DiGraph.addEdge
  simp only [if_pos hu, if_pos hv]
  by_cases he : g.hasEdge u v
  · rw [if_pos he]
    unfold insertNew
    rw [if_pos he]
    show (g.edges.map _).map _ = g.edges.map _
    rw [List.map_map]
    apply List.map_congr_left
    intro e _
    by_cases hc : e.1 = u ∧ e.2.1 = v
    · obtain ⟨h1, h2⟩ := hc
      simp only [if_pos (And.intro h1 h2), Function.comp_apply]
      rw [← h1, ← h2]
    · simp [hc]
  · rw [if_neg he]
    unfold insertNew
    rw [if_neg he]
    show (g.edges ++ [(u, v, attrs)]).map _ = g.edges.map _ ++ [(u, v)]
    simp [DiGraph.edgeKeys]

/-- `add_triplet` rewritten through `ensureNode`: definitional repackaging of
the first two conditionals. -/
theorem add_triplet_graph (kg : KnowledgeGraph) (s r o : String) (p : AttrDict) :
    (kg.add_triplet s r o p).graph
      = ((ensureNode (ensureNode kg.graph s [("type", .pstr "subject")])
            o [("type", .pstr "object")]).addEdge s o (edgeProps r p)) := by
  simp only [KnowledgeGraph.add_triplet, ensureNode]

theorem nodeNames_add_triplet (kg : KnowledgeGraph) (s r o : String) (p : AttrDict) :
    (kg.add_triplet s r o p).graph.nodeNames
      = insertNew (insertNew kg.graph.nodeNames s) o := by
  rw [add_triplet_graph]
  rw [nodeNames_addEdge]
  · rw [nodeNames_ensureNode, nodeNames_ensureNode]
  · exact hasNode_ensureNode_mono _ _ _ _ (hasNode_ensureNode_self _ _ _)
  · exact hasNode_ensureNode_self _ _ _

theorem edgeKeys_add_triplet (kg : KnowledgeGraph) (s r o : String) (p : AttrDict) :
    (kg.add_triplet s r o p).graph.edgeKeys
      = insertNew kg.graph.edgeKeys (s, o) := by
  rw [add_triplet_graph]
  rw [edgeKeys_addEdge]
  · show insertNew ((ensureNode _ _ _).edges.map _) _ = _
    rw [edges_ensureNode, edges_ensureNode]
    rfl
  · exact hasNode_ensureNode_mono _ _ _ _ (hasNode_ensureNode_self _ _ _)
  · exact hasNode_ensureNode_self _ _ _

theorem applyTriplets_cons (kg : KnowledgeGraph) (t : TripletIn) (ts : List TripletIn) :
    applyTriplets kg (t :: ts)
      = applyTriplets (kg.add_triplet t.subject t.relation t.obj t.props) ts := by
  simp [applyTriplets]

theorem applyTriplets_nodeNames (ts : List TripletIn) (kg : KnowledgeGraph) :
    (applyTriplets kg ts).graph.nodeNames
      = ts.foldl (fun l t => insertNew (insertNew l t.subject) t.obj) kg.graph.nodeNames := by
  induction ts generalizing kg with
  | nil => rfl
  | cons t ts ih =>
      rw [applyTriplets_cons, ih, nodeNames_add_triplet, List.foldl_cons]

theorem applyTriplets_edgeKeys (ts : List TripletIn) (kg : KnowledgeGraph) :
    (applyTriplets kg ts).graph.edgeKeys
      = ts.foldl (fun l t => insertNew l (t.subject, t.obj)) kg.graph.edgeKeys := by
  induction ts generalizing kg with
  | nil => rfl
  | cons t ts ih =>
      rw [applyTriplets_cons, ih, edgeKeys_add_triplet, List.foldl_cons]

theorem foldl_insertNew2_toFinset (ts : List TripletIn) (init : List String) :
    (ts.foldl (fun l t => insertNew (insertNew l t.subject) t.obj) init).toFinset
      = init.toFinset ∪ (ts.map TripletIn.subject).toFinset
          ∪ (ts.map TripletIn.obj).toFinset := by
  induction ts generalizing init with
  | nil => simp
  | cons t ts ih =>
      rw [List.foldl_cons, ih]
      apply Finset.ext
      intro x
      simp [toFinset_insertNew]

theorem foldl_insertNew2_nodup (ts : List TripletIn) (init : List String)
    (h : init.Nodup) :
    (ts.foldl (fun l t => insertNew (insertNew l t.subject) t.obj) init).Nodup := by
  induction ts generalizing init with
  | nil => exact h
  | cons t ts ih =>
      rw [List.foldl_cons]
      exact ih _ (insertNew_nodup _ _ (insertNew_nodup _ _ h))

theorem foldl_insertNew_toFinset {α β : Type} [DecidableEq α] (f : β → α)
    (ts : List β) (init : List α) :
    (ts.foldl (fun l t => insertNew l (f t)) init).toFinset
      = init.toFinset ∪ (ts.map f).toFinset := by
  induction ts generalizing init with
  | nil => simp
  | cons t ts ih =>
      rw [List.foldl_cons, ih]
      apply Finset.ext
      intro x
      simp [toFinset_insertNew]

theorem foldl_insertNew_nodup {α β : Type} [DecidableEq α] (f : β → α)
    (ts : List β) (init : List α) (h : init.Nodup) :
    (ts.foldl (fun l t => insertNew l (f t)) init).Nodup := by
  induction ts generalizing init with
  | nil => exact h
  | cons t ts ih =>
      rw [List.foldl_cons]
      exact ih _ (insertNew_nodup _ _ h)

/-- C1 counterexample: the store is a `networkx.DiGraph`, not a multigraph.
Re-inserting the pair ("a", "b") with a second relation label "r2" overwrites
the "r1" edge, so after 2 `add_triplet` calls the edge count is 1, not 2 as
the claim requires. -/
theorem C1_counterexample :
    (applyTriplets KnowledgeGraph.emptyKG
        [⟨"a", "r1", "b", []⟩, ⟨"a", "r2", "b", []⟩]).get_stats.edge_count = 1
    ∧ ¬ ((applyTriplets KnowledgeGraph.emptyKG
        [⟨"a", "r1", "b", []⟩, ⟨"a", "r2", "b", []⟩]).get_stats.edge_count
          = [⟨"a", "r1", "b", []⟩, (⟨"a", "r2", "b", []⟩ : TripletIn)].length) := by
  constructor <;> decide

/-- C1, amended: after any sequence of `add_triplet` calls on a fresh
`KnowledgeGraph`, the node count equals the number of distinct subject/object
strings inserted (as claimed), but the edge count equals the number of
distinct (subject, object) pairs — a repeated pair merges into the existing
edge instead of adding a parallel one. -/
theorem C1_amended (ts : List TripletIn) :
    (applyTriplets KnowledgeGraph.emptyKG ts).get_stats.node_count
      = (ts.map TripletIn.subject ++ ts.map TripletIn.obj).toFinset.card
    ∧ (applyTriplets KnowledgeGraph.emptyKG ts).get_stats.edge_count
      = (ts.map (fun t => (t.subject, t.obj))).toFinset.card := by
  constructor
  · show (applyTriplets KnowledgeGraph.emptyKG ts).graph.numberOfNodes = _
    have hlen : (applyTriplets KnowledgeGraph.emptyKG ts).graph.numberOfNodes
        = (applyTriplets KnowledgeGraph.emptyKG ts).graph.nodeNames.length := by
      simp [DiGraph.numberOfNodes, DiGraph.nodeNames]
    rw [hlen, applyTriplets_nodeNames]
    have hinit : KnowledgeGraph.emptyKG.graph.nodeNames = [] := rfl
    rw [hinit]
    have hnodup := foldl_insertNew2_nodup ts [] List.nodup_nil
    rw [← List.toFinset_card_of_nodup hnodup, foldl_insertNew2_toFinset]
    rw [List.toFinset_append]
    simp
  · show (applyTriplets KnowledgeGraph.emptyKG ts).graph.numberOfEdges = _
    have hlen : (applyTriplets KnowledgeGraph.emptyKG ts).graph.numberOfEdges
        = (applyTriplets KnowledgeGraph.emptyKG ts).graph.edgeKeys.length := by
      simp [DiGraph.numberOfEdges, DiGraph.edgeKeys]
    rw [hlen, applyTriplets_edgeKeys]
    have hinit : KnowledgeGraph.emptyKG.graph.edgeKeys = [] := rfl
    rw [hinit]
    have hnodup := foldl_insertNew_nodup (fun t : TripletIn => (t.subject, t.obj)) ts [] List.nodup_nil
    rw [← List.toFinset_card_of_nodup hnodup, foldl_insertNew_toFinset]
    simp

/-! ## C10: role counters vs. node count -/

theorem numberOfNodes_eq_length_nodeNames (g : DiGraph) :
    g.numberOfNodes = g.nodeNames.length := by
  simp [DiGraph.numberOfNodes, DiGraph.nodeNames]

theorem numberOfEdges_eq_length_edgeKeys (g : DiGraph) :
    g.numberOfEdges = g.edgeKeys.length := by
  simp [DiGraph.numberOfEdges, DiGraph.edgeKeys]

theorem length_insertNew {α : Type} [DecidableEq α] (l : List α) (a : α) :
    (insertNew l a).length = if a ∈ l then l.length else l.length + 1 := by
  unfold insertNew
  split <;> simp

theorem subject_count_add_triplet (kg : KnowledgeGraph) (s r o : String) (p : AttrDict) :
    (kg.add_triplet s r o p).stats.subject_count
      = if kg.graph.hasNode s then kg.stats.subject_count
        else kg.stats.subject_count + 1 := by
  simp only [KnowledgeGraph.add_triplet]

theorem object_count_add_triplet (kg : KnowledgeGraph) (s r o : String) (p : AttrDict) :
    (kg.add_triplet s r o p).stats.object_count
      = if (ensureNode kg.graph s [("type", .pstr "subject")]).hasNode o then
          kg.stats.object_count
        else kg.stats.object_count + 1 := by
  simp only [KnowledgeGraph.add_triplet, ensureNode]

/-- A single `add_triplet` call preserves `subject_count + object_count =
node count`: each newly created node bumps exactly one role counter, and a
self-referential triplet (subject = object) creates the node once, as a
subject. -/
theorem counts_add_triplet (kg : KnowledgeGraph) (s r o : String) (p : AttrDict)
    (h : kg.stats.subject_count + kg.stats.object_count = kg.graph.numberOfNodes) :
    (kg.add_triplet s r o p).stats.subject_count
      + (kg.add_triplet s r o p).stats.object_count
      = (kg.add_triplet s r o p).graph.numberOfNodes := by
  rw [subject_count_add_triplet, object_count_add_triplet,
      numberOfNodes_eq_length_nodeNames, nodeNames_add_triplet]
  rw [numberOfNodes_eq_length_nodeNames] at h
  have hens : (ensureNode kg.graph s [("type", .pstr "subject")]).hasNode o
      ↔ o ∈ insertNew kg.graph.nodeNames s := by
    show o ∈ (ensureNode kg.graph s [("type", PVal.pstr "subject")]).nodeNames ↔ _
    rw [nodeNames_ensureNode]
  rw [length_insertNew, length_insertNew]
  simp only [hens]
  by_cases hs : kg.graph.hasNode s <;>
    by_cases ho : o ∈ insertNew kg.graph.nodeNames s <;>
      simp only [hs, ho, if_true, if_false, ite_true, ite_false] <;>
    omega

/-- An operation on the store: a triplet insertion or a full clear (the only
mutating operations besides deserialization). -/
inductive GraphOp where
  | add (t : TripletIn)
  | clear
  deriving DecidableEq, Repr

/-- Run a sequence of `add_triplet`/`clear` calls. -/
def applyOps : KnowledgeGraph → List GraphOp → KnowledgeGraph
  | kg, [] => kg
  | kg, (.add t) :: ops => applyOps (kg.add_triplet t.subject t.relation t.obj t.props) ops
  | kg, .clear :: ops => applyOps kg.clear ops

theorem applyOps_cons_add (kg : KnowledgeGraph) (t : TripletIn) (ops : List GraphOp) :
    applyOps kg (.add t :: ops)
      = applyOps (kg.add_triplet t.subject t.relation t.obj t.props) ops := by
  simp [applyOps]

theorem applyOps_cons_clear (kg : KnowledgeGraph) (ops : List GraphOp) :
    applyOps kg (.clear :: ops) = applyOps kg.clear ops := by
  simp [applyOps]

theorem counts_applyOps (ops : List GraphOp) (kg : KnowledgeGraph)
    (h : kg.stats.subject_count + kg.stats.object_count = kg.graph.numberOfNodes) :
    (applyOps kg ops).stats.subject_count + (applyOps kg ops).stats.object_count
      = (applyOps kg ops).graph.numberOfNodes := by
  induction ops generalizing kg with
  | nil => exact h
  | cons op ops ih =>
      cases op with
      | add t =>
          rw [applyOps_cons_add]
          exact ih _ (counts_add_triplet kg _ _ _ _ h)
      | clear =>
          rw [applyOps_cons_clear]
          exact ih _ rfl

/-- C10: for every sequence of `add_triplet` and `clear` calls on a fresh
store, `subject_count + object_count = node_count`; moreover a triplet whose
subject and object are the same new string bumps only the subject counter,
once. -/
theorem C10_role_counters :
    (∀ ops : List GraphOp,
        (applyOps KnowledgeGraph.emptyKG ops).stats.subject_count
          + (applyOps KnowledgeGraph.emptyKG ops).stats.object_count
          = (applyOps KnowledgeGraph.emptyKG ops).get_stats.node_count)
    ∧ (∀ (kg : KnowledgeGraph) (s r : String) (p : AttrDict),
        ¬ kg.graph.hasNode s →
        (kg.add_triplet s r s p).stats.subject_count = kg.stats.subject_count + 1
        ∧ (kg.add_triplet s r s p).stats.object_count = kg.stats.object_count) := by
  constructor
  · intro ops
    exact counts_applyOps ops KnowledgeGraph.emptyKG rfl
  · intro kg s r p hs
    constructor
    · rw [subject_count_add_triplet, if_neg hs]
    · rw [object_count_add_triplet, if_pos (hasNode_ensureNode_self kg.graph s _)]

/-- Witness for C10 at a concrete input: a single self-referential triplet
on the fresh store. -/
theorem C10_role_counters_witness :
    ((applyOps KnowledgeGraph.emptyKG [.add ⟨"a", "r", "a", []⟩]).stats.subject_count
       + (applyOps KnowledgeGraph.emptyKG [.add ⟨"a", "r", "a", []⟩]).stats.object_count
       = (applyOps KnowledgeGraph.emptyKG [.add ⟨"a", "r", "a", []⟩]).get_stats.node_count)
    ∧ ((KnowledgeGraph.emptyKG.add_triplet "a" "r" "a" []).stats.subject_count
         = KnowledgeGraph.emptyKG.stats.subject_count + 1
       ∧ (KnowledgeGraph.emptyKG.add_triplet "a" "r" "a" []).stats.object_count
         = KnowledgeGraph.emptyKG.stats.object_count) :=
  ⟨C10_role_counters.1 [.add ⟨"a", "r", "a", []⟩],
   C10_role_counters.2 KnowledgeGraph.emptyKG "a" "r" [] (by decide)⟩

/-! ## C3: stats vs. live store -/

theorem find?_key_map_set_self (d : AttrDict) (k : String) (v : PVal)
    (h : d.any (fun p => p.1 == k) = true) :
    (d.map (fun p => if p.1 = k then (k, v) else p)).find? (fun p => p.1 == k)
      = some (k, v) := by
  induction d with
  | nil => simp at h
  | cons q d ih =>
      by_cases hq : q.1 = k
      · simp [hq]
      · have h1 : (q.1 == k) = false := beq_eq_false_iff_ne.mpr hq
        have h' : d.any (fun p => p.1 == k) = true := by
          rw [List.any_cons, h1] at h
          simpa using h
        simp only [List.map_cons, if_neg hq]
        rw [List.find?_cons_of_neg _ (by simp [h1]), ih h']

theorem find?_key_append_self (d : AttrDict) (k : String) (v : PVal)
    (h : d.any (fun p => p.1 == k) = false) :
    (d ++ [(k, v)]).find? (fun p => p.1 == k) = some (k, v) := by
  induction d with
  | nil => simp
  | cons q d ih =>
      rw [List.any_cons] at h
      have h1 : (q.1 == k) = false := by
        cases hqk : (q.1 == k) with
        | true => rw [hqk] at h; simp at h
        | false => rfl
      have h2 : d.any (fun p => p.1 == k) = false := by
        rw [h1] at h; simpa using h
      rw [List.cons_append, List.find?_cons_of_neg _ (by simp [h1]), ih h2]

theorem dictGet?_dictSet_self (d : AttrDict) (k : String) (v : PVal) :
    dictGet? (dictSet d k v) k = some v := by
  unfold dictSet dictGet?
  split <;> rename_i h
  · rw [find?_key_map_set_self d k v h]
    rfl
  · rw [find?_key_append_self d k v (Bool.eq_false_iff.mpr h)]
    rfl

theorem find?_key_map_set_ne (d : AttrDict) (k' : String) (v : PVal) (k : String)
    (hne : k' ≠ k) :
    (d.map (fun p => if p.1 = k' then (k', v) else p)).find? (fun p => p.1 == k)
      = d.find? (fun p => p.1 == k) := by
  induction d with
  | nil => rfl
  | cons q d ih =>
      by_cases hq' : q.1 = k'
      · have hqk : (q.1 == k) = false :=
          beq_eq_false_iff_ne.mpr (fun h => hne (hq' ▸ h))
        have hk'k : ((k' : String) == k) = false := beq_eq_false_iff_ne.mpr hne
        simp only [List.map_cons, if_pos hq']
        rw [List.find?_cons_of_neg _ (by simp [hk'k]),
            List.find?_cons_of_neg _ (by simp [hqk]), ih]
      · by_cases hqk : q.1 = k
        · simp only [List.map_cons, if_neg hq']
          rw [List.find?_cons_of_pos _ (by simp [hqk]),
              List.find?_cons_of_pos _ (by simp [hqk])]
        · have h1 : (q.1 == k) = false := beq_eq_false_iff_ne.mpr hqk
          simp only [List.map_cons, if_neg hq']
          rw [List.find?_cons_of_neg _ (by simp [h1]),
              List.find?_cons_of_neg _ (by simp [h1]), ih]

theorem find?_key_append_ne (d : AttrDict) (k' : String) (v : PVal) (k : String)
    (hne : k' ≠ k) :
    (d ++ [(k', v)]).find? (fun p => p.1 == k) = d.find? (fun p => p.1 == k) := by
  induction d with
  | nil =>
      simp [beq_eq_false_iff_ne.mpr hne]
  | cons q d ih =>
      rw [List.cons_append]
      cases hqk : (q.1 == k) with
      | true =>
          rw [List.find?_cons_of_pos _ (by simp [hqk]),
              List.find?_cons_of_pos _ (by simp [hqk])]
      | false =>
          rw [List.find?_cons_of_neg _ (by simp [hqk]),
              List.find?_cons_of_neg _ (by simp [hqk]), ih]

theorem dictGet?_dictSet_ne (d : AttrDict) (k' : String) (v : PVal) (k : String)
    (hne : k' ≠ k) : dictGet? (dictSet d k' v) k = dictGet? d k := by
  unfold dictSet dictGet?
  split
  · rw [find?_key_map_set_ne d k' v k hne]
  · rw [find?_key_append_ne d k' v k hne]

theorem dictGet?_dictMerge_of_ne (e d : AttrDict) (k : String)
    (h : ∀ q ∈ e, q.1 ≠ k) : dictGet? (dictMerge d e) k = dictGet? d k := by
  induction e generalizing d with
  | nil => rfl
  | cons q e ih =>
      show dictGet? (dictMerge (dictSet d q.1 q.2) e) k = _
      rw [ih _ (fun q' hq' => h q' (List.mem_cons_of_mem _ hq')),
          dictGet?_dictSet_ne _ _ _ _ (h q (List.mem_cons_self _ _))]

theorem mem_keys_dictSet (d : AttrDict) (k : String) (v : PVal) (q : String × PVal)
    (hq : q ∈ dictSet d k v) : q.1 ∈ d.map Prod.fst ∨ q.1 = k := by
  unfold dictSet at hq
  split at hq
  · rcases List.mem_map.mp hq with ⟨p, hp, hpq⟩
    by_cases hpk : p.1 = k
    · rw [if_pos hpk] at hpq
      right
      rw [← hpq]
    · rw [if_neg hpk] at hpq
      left
      rw [← hpq]
      exact List.mem_map_of_mem _ hp
  · rcases List.mem_append.mp hq with hq | hq
    · exact Or.inl (List.mem_map_of_mem _ hq)
    · right
      rw [List.mem_singleton.mp hq]

theorem mem_keys_dictMerge (e d : AttrDict) (q : String × PVal)
    (hq : q ∈ dictMerge d e) : q.1 ∈ d.map Prod.fst ∨ q.1 ∈ e.map Prod.fst := by
  induction e generalizing d with
  | nil => exact Or.inl (List.mem_map_of_mem _ hq)
  | cons p e ih =>
      rcases ih (dictSet d p.1 p.2) hq with h | h
      · rcases List.mem_map.mp h with ⟨q', hq', hfst⟩
        rcases mem_keys_dictSet d p.1 p.2 q' hq' with h' | h'
        · exact Or.inl (hfst ▸ h')
        · right
          rw [List.map_cons, ← hfst, h']
          exact List.mem_cons_self _ _
      · right
        rw [List.map_cons]
        exact List.mem_cons_of_mem _ h

theorem dictSet_cons_ne (k : String) (v : PVal) (d : AttrDict) (k' : String)
    (w : PVal) (hne : k' ≠ k) :
    dictSet ((k, v) :: d) k' w = (k, v) :: dictSet d k' w := by
  unfold dictSet
  have h1 : ((k : String) == k') = false :=
    beq_eq_false_iff_ne.mpr (fun h => hne h.symm)
  rw [List.any_cons]
  simp only [h1, Bool.false_or]
  split
  · rw [List.map_cons, if_neg (fun h => hne h.symm)]
  · rw [List.cons_append]

theorem dictMerge_cons_of_ne (e : AttrDict) (k : String) (v : PVal) (d : AttrDict)
    (h : ∀ q ∈ e, q.1 ≠ k) :
    dictMerge ((k, v) :: d) e = (k, v) :: dictMerge d e := by
  induction e generalizing d with
  | nil => rfl
  | cons q e ih =>
      show dictMerge (dictSet ((k, v) :: d) q.1 q.2) e = _
      rw [dictSet_cons_ne _ _ _ _ _ (h q (List.mem_cons_self _ _))]
      exact ih _ (fun q' hq' => h q' (List.mem_cons_of_mem _ hq'))

/-- The edge-property dict always starts with the `relation` binding, and no
later entry rebinds it when `properties` itself avoids the key. -/
theorem edgeProps_shape (r : String) (p : AttrDict)
    (hp : ∀ q ∈ p, q.1 ≠ "relation") :
    ∃ tail, edgeProps r p = ("relation", .pstr r) :: tail
      ∧ ∀ q ∈ tail, q.1 ≠ "relation" := by
  unfold edgeProps
  split
  · refine ⟨dictMerge [] p, ?_, ?_⟩
    · exact dictMerge_cons_of_ne p _ _ [] hp
    · intro q hq
      rcases mem_keys_dictMerge p [] q hq with h | h
      · simp at h
      · rcases List.mem_map.mp h with ⟨q', hq', hfst⟩
        rw [← hfst]
        exact hp q' hq'
  · exact ⟨[], rfl, by simp⟩

theorem dictGet?_cons_self (k : String) (v : PVal) (d : AttrDict) :
    dictGet? ((k, v) :: d) k = some v := by
  unfold dictGet?
  rw [List.find?_cons_of_pos _ (by simp)]
  rfl

theorem dictGet?_edgeProps (r : String) (p : AttrDict)
    (hp : ∀ q ∈ p, q.1 ≠ "relation") :
    dictGet? (edgeProps r p) "relation" = some (.pstr r) := by
  obtain ⟨tail, heq, -⟩ := edgeProps_shape r p hp
  rw [heq, dictGet?_cons_self]

theorem dictGet?_dictMerge_edgeProps (old : AttrDict) (r : String) (p : AttrDict)
    (hp : ∀ q ∈ p, q.1 ≠ "relation") :
    dictGet? (dictMerge old (edgeProps r p)) "relation" = some (.pstr r) := by
  obtain ⟨tail, heq, htail⟩ := edgeProps_shape r p hp
  rw [heq]
  show dictGet? (dictMerge (dictSet old "relation" (.pstr r)) tail) "relation" = _
  rw [dictGet?_dictMerge_of_ne tail _ _ htail, dictGet?_dictSet_self]

/-- Re-derive the `subject`/`object` role counts by scanning the live node
collection (what the spec says stats must equal). -/
def countByType (g : DiGraph) (ty : String) : ℕ :=
  (g.nodes.filter (fun p => decide (dictGet? p.2 "type" = some (.pstr ty)))).length

theorem nodes_addEdge (g : DiGraph) (u v : String) (attrs : AttrDict)
    (hu : g.hasNode u) (hv : g.hasNode v) :
    (g.addEdge u v attrs).nodes = g.nodes := by
  unfold DiGraph.addEdge
  simp only [if_pos hu, if_pos hv]
  split <;> rfl

theorem edges_addEdge (g : DiGraph) (u v : String) (attrs : AttrDict)
    (hu : g.hasNode u) (hv : g.hasNode v) :
    (g.addEdge u v attrs).edges
      = if g.hasEdge u v then
          g.edges.map (fun e =>
            if e.1 = u ∧ e.2.1 = v then (u, v, dictMerge e.2.2 attrs) else e)
        else g.edges ++ [(u, v, attrs)] := by
  unfold DiGraph.addEdge
  simp only [if_pos hu, if_pos hv]
  split <;> rfl

theorem countByType_ensureNode (g : DiGraph) (s ty ty' : String) :
    countByType (ensureNode g s [("type", .pstr ty)]) ty'
      = countByType g ty'
          + if g.hasNode s then 0 else if ty = ty' then 1 else 0 := by
  unfold ensureNode
  by_cases h : g.hasNode s
  · rw [if_pos h, if_pos h]
    exact (Nat.add_zero _).symm
  · rw [if_neg h, if_neg h]
    unfold DiGraph.addNode
    rw [if_neg h]
    unfold countByType
    simp only [List.filter_append, List.length_append]
    congr 1
    by_cases hty : ty = ty' <;>
      simp [List.filter, dictGet?, List.find?, hty]

theorem countByType_congr (g g' : DiGraph) (h : g.nodes = g'.nodes) (ty : String) :
    countByType g ty = countByType g' ty := by
  unfold countByType
  rw [h]

theorem hasEdge_congr (g g' : DiGraph) (h : g.edges = g'.edges) (u v : String) :
    g.hasEdge u v ↔ g'.hasEdge u v := by
  show (u, v) ∈ g.edgeKeys ↔ (u, v) ∈ g'.edgeKeys
  unfold DiGraph.edgeKeys
  rw [h]

theorem relation_types_add_triplet (kg : KnowledgeGraph) (s r o : String) (p : AttrDict) :
    (kg.add_triplet s r o p).stats.relation_types
      = setInsert kg.stats.relation_types r := by
  simp only [KnowledgeGraph.add_triplet]

theorem setInsert_eq_insertNew (l : List String) (r : String) :
    setInsert l r = insertNew l r := rfl

theorem countByType_add_triplet (kg : KnowledgeGraph) (s r o : String)
    (p : AttrDict) (ty : String) :
    countByType (kg.add_triplet s r o p).graph ty
      = countByType kg.graph ty
          + (if kg.graph.hasNode s then 0 else if "subject" = ty then 1 else 0)
          + (if (ensureNode kg.graph s [("type", .pstr "subject")]).hasNode o then 0
             else if "object" = ty then 1 else 0) := by
  have h2s : (ensureNode (ensureNode kg.graph s [("type", PVal.pstr "subject")]) o
      [("type", PVal.pstr "object")]).hasNode s :=
    hasNode_ensureNode_mono _ _ _ _ (hasNode_ensureNode_self _ _ _)
  have h2o : (ensureNode (ensureNode kg.graph s [("type", PVal.pstr "subject")]) o
      [("type", PVal.pstr "object")]).hasNode o :=
    hasNode_ensureNode_self _ _ _
  rw [add_triplet_graph,
      countByType_congr _ _ (nodes_addEdge _ _ _ _ h2s h2o) ty,
      countByType_ensureNode, countByType_ensureNode]

/-- The invariant C3 is about: role counters and the relation-type set agree
with what a rescan of the live node/edge collections would produce. -/
def statsAligned (kg : KnowledgeGraph) : Prop :=
  kg.stats.subject_count = countByType kg.graph "subject"
  ∧ kg.stats.object_count = countByType kg.graph "object"
  ∧ ∀ e ∈ kg.graph.edges, ∃ rel, dictGet? e.2.2 "relation" = some (.pstr rel)
      ∧ rel ∈ kg.stats.relation_types

theorem statsAligned_add_triplet (kg : KnowledgeGraph) (s r o : String)
    (p : AttrDict) (hp : ∀ q ∈ p, q.1 ≠ "relation") (h : statsAligned kg) :
    statsAligned (kg.add_triplet s r o p) := by
  obtain ⟨hsub, hobj, hrel⟩ := h
  have h2s : (ensureNode (ensureNode kg.graph s [("type", PVal.pstr "subject")]) o
      [("type", PVal.pstr "object")]).hasNode s :=
    hasNode_ensureNode_mono _ _ _ _ (hasNode_ensureNode_self _ _ _)
  have h2o : (ensureNode (ensureNode kg.graph s [("type", PVal.pstr "subject")]) o
      [("type", PVal.pstr "object")]).hasNode o :=
    hasNode_ensureNode_self _ _ _
  have hedges : (ensureNode (ensureNode kg.graph s [("type", PVal.pstr "subject")]) o
      [("type", PVal.pstr "object")]).edges = kg.graph.edges := by
    rw [edges_ensureNode, edges_ensureNode]
  refine ⟨?_, ?_, ?_⟩
  · rw [subject_count_add_triplet, countByType_add_triplet kg s r o p "subject"]
    rw [if_pos (rfl : "subject" = "subject"),
        if_neg (by decide : ¬ ("object" = "subject"))]
    by_cases hs : kg.graph.hasNode s <;>
      by_cases ho : (ensureNode kg.graph s [("type", PVal.pstr "subject")]).hasNode o <;>
        simp only [hs, ho, if_true, if_false, ite_true, ite_false, hsub] <;> omega
  · rw [object_count_add_triplet, countByType_add_triplet kg s r o p "object"]
    rw [if_pos (rfl : "object" = "object"),
        if_neg (by decide : ¬ ("subject" = "object"))]
    by_cases hs : kg.graph.hasNode s <;>
      by_cases ho : (ensureNode kg.graph s [("type", PVal.pstr "subject")]).hasNode o <;>
        simp only [hs, ho, if_true, if_false, ite_true, ite_false, hobj] <;> omega
  · intro e' he'
    rw [relation_types_add_triplet, setInsert_eq_insertNew]
    rw [show (kg.add_triplet s r o p).graph = _ from add_triplet_graph kg s r o p,
        edges_addEdge _ _ _ _ h2s h2o] at he'
    by_cases he : kg.graph.hasEdge s o
    · rw [if_pos ((hasEdge_congr _ _ hedges s o).mpr he), hedges] at he'
      rcases List.mem_map.mp he' with ⟨e, hmem, rfl⟩
      by_cases hc : e.1 = s ∧ e.2.1 = o
      · rw [if_pos hc]
        exact ⟨r, dictGet?_dictMerge_edgeProps _ _ _ hp, self_mem_insertNew _ _⟩
      · rw [if_neg hc]
        obtain ⟨rel, hget, hmemr⟩ := hrel e hmem
        exact ⟨rel, hget, (mem_insertNew _ _ _).mpr (Or.inl hmemr)⟩
    · rw [if_neg (fun hx => he ((hasEdge_congr _ _ hedges s o).mp hx)), hedges] at he'
      rcases List.mem_append.mp he' with hmem | hmem
      · obtain ⟨rel, hget, hmemr⟩ := hrel e' hmem
        exact ⟨rel, hget, (mem_insertNew _ _ _).mpr (Or.inl hmemr)⟩
      · rw [List.mem_singleton.mp hmem]
        exact ⟨r, dictGet?_edgeProps _ _ hp, self_mem_insertNew _ _⟩

theorem statsAligned_applyOps (ops : List GraphOp) (kg : KnowledgeGraph)
    (hp : ∀ t, GraphOp.add t ∈ ops → ∀ q ∈ t.props, q.1 ≠ "relation")
    (h : statsAligned kg) : statsAligned (applyOps kg ops) := by
  induction ops generalizing kg with
  | nil => exact h
  | cons op ops ih =>
      cases op with
      | add t =>
          rw [applyOps_cons_add]
          exact ih _ (fun t' ht' => hp t' (List.mem_cons_of_mem _ ht'))
            (statsAligned_add_triplet kg _ _ _ _
              (hp t (List.mem_cons_self _ _)) h)
      | clear =>
          rw [applyOps_cons_clear]
          exact ih _ (fun t' ht' => hp t' (List.mem_cons_of_mem _ ht'))
            ⟨rfl, rfl, by intro e he; cases he⟩

/-- C3 counterexample: after inserting ("a","r1","b") and then ("a","r2","b"),
the cached `relation_types` set still contains "r1" although the single live
edge carries only the label "r2" — the set is a stale superset, not the value
a rescan of the live edge collection would produce. -/
theorem C3_counterexample :
    "r1" ∈ (applyOps KnowledgeGraph.emptyKG
        [.add ⟨"a", "r1", "b", []⟩, .add ⟨"a", "r2", "b", []⟩]).get_stats.relation_types
    ∧ ∀ e ∈ (applyOps KnowledgeGraph.emptyKG
        [.add ⟨"a", "r1", "b", []⟩, .add ⟨"a", "r2", "b", []⟩]).graph.edges,
        dictGet? e.2.2 "relation" ≠ some (.pstr "r1") := by
  constructor
  · decide
  · decide

/-- C3, amended: for every sequence of `add_triplet`/`clear` operations whose
extra properties never rebind the `relation` key, the reported subject/object
counts equal the values recomputed from the live node collection and the
node/edge counts are recomputed from the store, as claimed; but the
relation-type set is only a superset of the labels on live edges (every live
edge's label is in the set), not always equal to it — overwriting an edge
leaves its old label behind (see the counterexample). -/
theorem C3_stats_amended (ops : List GraphOp)
    (hp : ∀ t, GraphOp.add t ∈ ops → ∀ q ∈ t.props, q.1 ≠ "relation") :
    ((applyOps KnowledgeGraph.emptyKG ops).get_stats.subject_count
        = countByType (applyOps KnowledgeGraph.emptyKG ops).graph "subject")
    ∧ ((applyOps KnowledgeGraph.emptyKG ops).get_stats.object_count
        = countByType (applyOps KnowledgeGraph.emptyKG ops).graph "object")
    ∧ ((applyOps KnowledgeGraph.emptyKG ops).get_stats.node_count
        = (applyOps KnowledgeGraph.emptyKG ops).graph.numberOfNodes)
    ∧ ((applyOps KnowledgeGraph.emptyKG ops).get_stats.edge_count
        = (applyOps KnowledgeGraph.emptyKG ops).graph.numberOfEdges)
    ∧ (∀ e ∈ (applyOps KnowledgeGraph.emptyKG ops).graph.edges,
        ∃ rel, dictGet? e.2.2 "relation" = some (.pstr rel)
          ∧ rel ∈ (applyOps KnowledgeGraph.emptyKG ops).get_stats.relation_types) := by
  obtain ⟨h1, h2, h3⟩ :=
    statsAligned_applyOps ops KnowledgeGraph.emptyKG hp
      ⟨rfl, rfl, by intro e he; cases he⟩
  exact ⟨h1, h2, rfl, rfl, h3⟩

/-- Witness for C3 at a concrete input: one triplet with a `level` property. -/
theorem C3_stats_amended_witness :
    ((applyOps KnowledgeGraph.emptyKG
        [.add ⟨"a", "r", "b", [("level", .pnum 1)]⟩]).get_stats.subject_count
        = countByType (applyOps KnowledgeGraph.emptyKG
            [.add ⟨"a", "r", "b", [("level", .pnum 1)]⟩]).graph "subject")
    ∧ ((applyOps KnowledgeGraph.emptyKG
        [.add ⟨"a", "r", "b", [("level", .pnum 1)]⟩]).get_stats.object_count
        = countByType (applyOps KnowledgeGraph.emptyKG
            [.add ⟨"a", "r", "b", [("level", .pnum 1)]⟩]).graph "object")
    ∧ ((applyOps KnowledgeGraph.emptyKG
        [.add ⟨"a", "r", "b", [("level", .pnum 1)]⟩]).get_stats.node_count
        = (applyOps KnowledgeGraph.emptyKG
            [.add ⟨"a", "r", "b", [("level", .pnum 1)]⟩]).graph.numberOfNodes)
    ∧ ((applyOps KnowledgeGraph.emptyKG
        [.add ⟨"a", "r", "b", [("level", .pnum 1)]⟩]).get_stats.edge_count
        = (applyOps KnowledgeGraph.emptyKG
            [.add ⟨"a", "r", "b", [("level", .pnum 1)]⟩]).graph.numberOfEdges)
    ∧ (∀ e ∈ (applyOps KnowledgeGraph.emptyKG
          [.add ⟨"a", "r", "b", [("level", .pnum 1)]⟩]).graph.edges,
        ∃ rel, dictGet? e.2.2 "relation" = some (.pstr rel)
          ∧ rel ∈ (applyOps KnowledgeGraph.emptyKG
              [.add ⟨"a", "r", "b", [("level", .pnum 1)]⟩]).get_stats.relation_types) :=
  C3_stats_amended [.add ⟨"a", "r", "b", [("level", .pnum 1)]⟩]
    (by
      intro t ht q hq
      rcases List.mem_singleton.mp ht with h
      injection h with h'
      subst h'
      rcases List.mem_singleton.mp hq with h''
      subst h''
      decide)

/-! ## C4: `compare_to_graph` reflexivity -/

/-- The similarity dictionary returned by `compare_to_graph`. -/
structure CompareResult where
  node_similarity : ℚ
  edge_similarity : ℚ
  overall_similarity : ℚ
  deriving DecidableEq, Repr

/-- The (source, target, relation) triple of an edge, with `d.get('relation','')`
defaulting to the empty string. -/
def edgeTriple (e : String × String × AttrDict) : String × String × PVal :=
  (e.1, e.2.1, (dictGet? e.2.2 "relation").getD (.pstr ""))

/-- `KnowledgeGraph.compare_to_graph` (lines 284–310): Jaccard similarity of
the node-identifier sets and of the (source, target, relation) triple sets,
each 0 when the union is empty, plus the arithmetic mean of the two. -/
def KnowledgeGraph.compare_to_graph (kg : KnowledgeGraph) (other : DiGraph) :
    CompareResult :=
  let nodes1 := kg.graph.nodeNames.toFinset
  let nodes2 := other.nodeNames.toFinset
  let edges1 := (kg.graph.edges.map edgeTriple).toFinset
  let edges2 := (other.edges.map edgeTriple).toFinset
  let jaccard_nodes : ℚ :=
    if (nodes1 ∪ nodes2).Nonempty then
      ((nodes1 ∩ nodes2).card : ℚ) / ((nodes1 ∪ nodes2).card : ℚ)
    else 0
  let jaccard_edges : ℚ :=
    if (edges1 ∪ edges2).Nonempty then
      ((edges1 ∩ edges2).card : ℚ) / ((edges1 ∪ edges2).card : ℚ)
    else 0
  ⟨jaccard_nodes, jaccard_edges, (jaccard_nodes + jaccard_edges) / 2⟩

/-- C4 counterexample: comparing the empty store to itself yields 0.0 for
both components (the Jaccard guards fall through to 0), not 1.0 as claimed
for "every GraphStore state, including the empty store". -/
theorem C4_counterexample :
    KnowledgeGraph.emptyKG.compare_to_graph KnowledgeGraph.emptyKG.graph
      = ⟨0, 0, 0⟩
    ∧ (KnowledgeGraph.emptyKG.compare_to_graph
        KnowledgeGraph.emptyKG.graph).node_similarity ≠ 1 := by
  have hempty : KnowledgeGraph.emptyKG.compare_to_graph KnowledgeGraph.emptyKG.graph
      = ⟨0, 0, 0⟩ := by
    simp only [KnowledgeGraph.compare_to_graph]
    have h1 : ¬ (KnowledgeGraph.emptyKG.graph.nodeNames.toFinset
        ∪ KnowledgeGraph.emptyKG.graph.nodeNames.toFinset).Nonempty := by
      simp [KnowledgeGraph.emptyKG, DiGraph.emptyGraph, DiGraph.nodeNames]
    have h2 : ¬ ((KnowledgeGraph.emptyKG.graph.edges.map edgeTriple).toFinset
        ∪ (KnowledgeGraph.emptyKG.graph.edges.map edgeTriple).toFinset).Nonempty := by
      simp [KnowledgeGraph.emptyKG, DiGraph.emptyGraph]
    rw [if_neg h1, if_neg h2]
    norm_num [CompareResult.mk.injEq]
  refine ⟨hempty, ?_⟩
  rw [hempty]
  norm_num

/-- C4, amended: comparing a store with at least one node and at least one
edge to (the graph of) itself yields node similarity 1.0, edge similarity
1.0 and overall similarity 1.0; the empty store instead yields 0.0. -/
theorem C4_amended (kg : KnowledgeGraph)
    (hn : kg.graph.nodes ≠ []) (he : kg.graph.edges ≠ []) :
    kg.compare_to_graph kg.graph = ⟨1, 1, 1⟩ := by
  simp only [KnowledgeGraph.compare_to_graph, Finset.union_self, Finset.inter_self]
  have hn' : kg.graph.nodeNames.toFinset.Nonempty := by
    cases hnodes : kg.graph.nodes with
    | nil => exact absurd hnodes hn
    | cons q l =>
        exact ⟨q.1, by simp [DiGraph.nodeNames, hnodes]⟩
  have he' : (kg.graph.edges.map edgeTriple).toFinset.Nonempty := by
    cases hedges : kg.graph.edges with
    | nil => exact absurd hedges he
    | cons e l =>
        exact ⟨edgeTriple e, by simp [hedges]⟩
  have h1 : ((kg.graph.nodeNames.toFinset.card : ℚ)) ≠ 0 :=
    Nat.cast_ne_zero.mpr (Finset.card_pos.mpr hn').ne'
  have h2 : (((kg.graph.edges.map edgeTriple).toFinset.card : ℚ)) ≠ 0 :=
    Nat.cast_ne_zero.mpr (Finset.card_pos.mpr he').ne'
  rw [if_pos hn', if_pos he', div_self h1, div_self h2]
  norm_num [CompareResult.mk.injEq]

/-- Witness for C4 at a concrete input: a one-triplet store. -/
theorem C4_amended_witness :
    (applyTriplets KnowledgeGraph.emptyKG
        [⟨"a", "r", "b", []⟩]).compare_to_graph
      (applyTriplets KnowledgeGraph.emptyKG [⟨"a", "r", "b", []⟩]).graph
      = ⟨1, 1, 1⟩ :=
  C4_amended (applyTriplets KnowledgeGraph.emptyKG [⟨"a", "r", "b", []⟩])
    (by decide) (by decide)

/-! ## C6: `get_subgraph_for_node` -/

/-- One frontier-expansion round of `get_subgraph_for_node` (lines 146–154):
collect every successor and predecessor of every included node, then union
into the inclusion set (Python sets modelled as duplicate-free lists). -/
def expandOnce (g : DiGraph) (incl : List String) : List String :=
  let newNodes := incl.foldl (fun acc n =>
    let succs := (g.edges.filter (fun e => decide (e.1 = n))).map (fun e => e.2.1)
    let preds := (g.edges.filter (fun e => decide (e.2.1 = n))).map (fun e => e.1)
    (succs ++ preds).foldl insertNew acc) []
  newNodes.foldl insertNew incl

/-- `self.graph.subgraph(nodes).copy()`: the induced subgraph, keeping every
included node and every edge whose two endpoints are both included —
including self-loops at an included node. -/
def DiGraph.inducedSubgraph (g : DiGraph) (incl : List String) : DiGraph :=
  ⟨g.nodes.filter (fun p => decide (p.1 ∈ incl)),
   g.edges.filter (fun e => decide (e.1 ∈ incl ∧ e.2.1 ∈ incl))⟩

/-- `KnowledgeGraph.get_subgraph_for_node` (lines 129–157): unknown node
yields an empty graph; otherwise expand the frontier `distance` times and
return the induced subgraph. -/
def KnowledgeGraph.get_subgraph_for_node (kg : KnowledgeGraph) (node : String)
    (distance : ℕ) : DiGraph :=
  if ¬ kg.graph.hasNode node then DiGraph.emptyGraph
  else
    kg.graph.inducedSubgraph
      ((List.range distance).foldl (fun s _ => expandOnce kg.graph s) [node])

/-- C6 counterexample: for a store holding the self-loop triplet
("a", "r", "a"), `get_subgraph_for_node "a" 0` contains the self-loop edge —
one edge, not the zero edges the claim requires for every present entity. -/
theorem C6_counterexample :
    ((applyTriplets KnowledgeGraph.emptyKG
        [⟨"a", "r", "a", []⟩]).get_subgraph_for_node "a" 0).edges.length = 1 := by
  decide

theorem filter_key_singleton {β : Type} (l : List (String × β)) (a : String)
    (hnodup : (l.map Prod.fst).Nodup) (ha : a ∈ l.map Prod.fst) :
    (l.filter (fun p => decide (p.1 ∈ [a]))).map Prod.fst = [a] := by
  induction l with
  | nil => simp at ha
  | cons q l ih =>
      rw [List.map_cons, List.nodup_cons] at hnodup
      obtain ⟨hq, hnodup⟩ := hnodup
      by_cases hqa : q.1 = a
      · have hrest : l.filter (fun p => decide (p.1 ∈ [a])) = [] := by
          rw [List.filter_eq_nil_iff]
          intro p hp
          simp only [List.mem_singleton, decide_eq_true_eq]
          intro hpa
          apply hq
          rw [hqa, ← hpa]
          exact List.mem_map_of_mem Prod.fst hp
        rw [List.filter_cons_of_pos (by simp [hqa]), hrest]
        simp [hqa]
      · have ha' : a ∈ l.map Prod.fst := by
          rw [List.map_cons] at ha
          rcases List.mem_cons.mp ha with h | h
          · exact absurd h.symm hqa
          · exact h
        rw [List.filter_cons_of_neg (by simp [hqa])]
        exact ih hnodup ha'

/-- C6, amended: `subgraphAround(e, 0)` for a present entity `e` returns
exactly the node set `{e}` together with the self-loop edges at `e` (so zero
edges exactly when `e` has no self-loop), and an unknown entity yields an
empty graph at every distance. -/
theorem C6_amended :
    (∀ (kg : KnowledgeGraph) (node : String) (distance : ℕ),
        ¬ kg.graph.hasNode node →
        kg.get_subgraph_for_node node distance = DiGraph.emptyGraph)
    ∧ (∀ (kg : KnowledgeGraph) (node : String),
        kg.graph.hasNode node → kg.graph.nodeNames.Nodup →
        (kg.get_subgraph_for_node node 0).nodeNames = [node]
        ∧ (kg.get_subgraph_for_node node 0).edges
            = kg.graph.edges.filter (fun e => decide (e.1 = node ∧ e.2.1 = node)))
    ∧ (∀ (kg : KnowledgeGraph) (node : String),
        kg.graph.hasNode node → kg.graph.nodeNames.Nodup →
        (∀ e ∈ kg.graph.edges, ¬ (e.1 = node ∧ e.2.1 = node)) →
        (kg.get_subgraph_for_node node 0).edges = []) := by
  have hbase : ∀ (kg : KnowledgeGraph) (node : String),
      kg.graph.hasNode node →
      kg.get_subgraph_for_node node 0
        = kg.graph.inducedSubgraph [node] := by
    intro kg node h
    unfold KnowledgeGraph.get_subgraph_for_node
    rw [if_neg (not_not.mpr h)]
    rfl
  refine ⟨?_, ?_, ?_⟩
  · intro kg node distance h
    unfold KnowledgeGraph.get_subgraph_for_node
    rw [if_pos h]
  · intro kg node h hnodup
    rw [hbase kg node h]
    constructor
    · exact filter_key_singleton kg.graph.nodes node hnodup h
    · show kg.graph.edges.filter _ = kg.graph.edges.filter _
      apply List.filter_congr
      intro e _
      simp [List.mem_singleton]
  · intro kg node h hnodup hloop
    rw [hbase kg node h]
    show kg.graph.edges.filter _ = []
    rw [List.filter_eq_nil_iff]
    intro e he
    simp only [List.mem_singleton, decide_eq_true_eq]
    exact fun hc => hloop e he ⟨hc.1, hc.2⟩

/-- Witness for C6 at concrete inputs: the one-triplet store ("a","r","b"),
queried for the unknown node "z", and for "a" at distance 0. -/
theorem C6_amended_witness :
    ((applyTriplets KnowledgeGraph.emptyKG
        [⟨"a", "r", "b", []⟩]).get_subgraph_for_node "z" 3 = DiGraph.emptyGraph)
    ∧ (((applyTriplets KnowledgeGraph.emptyKG
        [⟨"a", "r", "b", []⟩]).get_subgraph_for_node "a" 0).nodeNames = ["a"]
      ∧ ((applyTriplets KnowledgeGraph.emptyKG
        [⟨"a", "r", "b", []⟩]).get_subgraph_for_node "a" 0).edges
          = (applyTriplets KnowledgeGraph.emptyKG
              [⟨"a", "r", "b", []⟩]).graph.edges.filter
              (fun e => decide (e.1 = "a" ∧ e.2.1 = "a")))
    ∧ (((applyTriplets KnowledgeGraph.emptyKG
        [⟨"a", "r", "b", []⟩]).get_subgraph_for_node "a" 0).edges = []) :=
  ⟨C6_amended.1 (applyTriplets KnowledgeGraph.emptyKG [⟨"a", "r", "b", []⟩])
      "z" 3 (by decide),
   C6_amended.2.1 (applyTriplets KnowledgeGraph.emptyKG [⟨"a", "r", "b", []⟩])
      "a" (by decide) (by decide),
   C6_amended.2.2 (applyTriplets KnowledgeGraph.emptyKG [⟨"a", "r", "b", []⟩])
      "a" (by decide) (by decide) (by decide)⟩

/-! ## C2: `get_relations_between` -/

/-- `relation_info.update(attrs)` where `attrs` is one *value* of the edge
attribute dict: the code iterates `get_edge_data(...).items()` as if a
`DiGraph` returned MultiDiGraph-style keyed dicts, so `attrs` is a plain
attribute value, not a dict.  Python `dict.update` with such an argument:
an empty string iterates zero key/value pairs (no-op); a non-empty string
raises `ValueError` (its characters are not pairs); numbers and `None` are
not iterable (`TypeError`). -/
def relInfoUpdate (d : AttrDict) (v : PVal) : Except String AttrDict :=
  match v with
  | .pstr s =>
      if s = "" then .ok d
      else .error "ValueError: dictionary update sequence element #0 has length 1; 2 is required"
  | .pnum _ => .error "TypeError: 'float' object is not iterable"
  | .pnone => .error "TypeError: 'NoneType' object is not iterable"

/-- The per-direction loop of `get_relations_between` (lines 198–201 and
206–209): for each (key, attrs) item of the edge-data dict, build
`{'direction': direction, 'other_node': other}`, `update` it with `attrs`
and append; the code passes `node2` as `other` in both directions. -/
def relLoop (items : List (String × PVal)) (direction other : String)
    (acc : List AttrDict) : Except String (List AttrDict) :=
  match items with
  | [] => .ok acc
  | (_, v) :: rest =>
      match relInfoUpdate [("direction", .pstr direction), ("other_node", .pstr other)] v with
      | .error e => .error e
      | .ok info => relLoop rest direction other (acc ++ [info])

/-- `KnowledgeGraph.get_relations_between` (lines 178–211): empty list when
either node is unknown, otherwise iterate the a→b edge data as `outgoing`
and the b→a edge data as `incoming`. -/
def KnowledgeGraph.get_relations_between (kg : KnowledgeGraph)
    (node1 node2 : String) : Except String (List AttrDict) :=
  if ¬ kg.graph.hasNode node1 ∨ ¬ kg.graph.hasNode node2 then .ok []
  else
    match (if kg.graph.hasEdge node1 node2 then
            relLoop (kg.graph.getEdgeData node1 node2) "outgoing" node2 []
           else .ok []) with
    | .error e => .error e
    | .ok rels =>
        if kg.graph.hasEdge node2 node1 then
          relLoop (kg.graph.getEdgeData node2 node1) "incoming" node2 rels
        else .ok rels

/-- C2: evaluating the code at the failing input.  After
`addTriplet("a", "likes", "b")`, `get_relations_between("a", "b")` raises
`ValueError` inside `relation_info.update('likes')` instead of returning the
edge with its properties (the claim, and the function's own docstring,
promise a list of relations and no error); the unknown-entity guard itself
works and returns an empty list. -/
theorem C2_get_relations_raises :
    (applyTriplets KnowledgeGraph.emptyKG
        [⟨"a", "likes", "b", []⟩]).get_relations_between "a" "b"
      = .error "ValueError: dictionary update sequence element #0 has length 1; 2 is required"
    ∧ (applyTriplets KnowledgeGraph.emptyKG
        [⟨"a", "likes", "b", []⟩]).get_relations_between "a" "zz" = .ok [] := by
  constructor
  · rfl
  · rfl

/-! ## C5: `semantic_chunk_text` -/

/-- A sentence as produced by the external sentence-splitting and embedding
capabilities: its text, its token count (`len(sent)`) and its embedding
vector. -/
structure Sent where
  text : String
  tokens : ℕ
  emb : List ℚ
  deriving DecidableEq, Repr

/-- The loop of `semantic_chunk_text` (lines 98–124), parametrised by the
similarity oracle `sim`, which models
`F.cosine_similarity(sentence_embedding, current_chunk_embedding.mean(dim=0))`
as computed by torch on the embedding capability's vectors: a candidate
sentence joins the current chunk when the token budget allows it and its
similarity against the running chunk reaches the threshold; otherwise the
chunk is flushed and the candidate seeds a new one. -/
def chunkLoop (sim : List (List ℚ) → List ℚ → ℚ) (maxTokens : ℕ) (threshold : ℚ) :
    List Sent → List String → List String → List (List ℚ) → ℕ → List String
  | [], chunks, curSents, _, _ =>
      if curSents ≠ [] then chunks ++ [" ".intercalate curSents] else chunks
  | s :: rest, chunks, curSents, curEmbs, curLen =>
      let similarity := sim curEmbs s.emb
      if curLen + s.tokens ≤ maxTokens ∧ similarity ≥ threshold then
        chunkLoop sim maxTokens threshold rest chunks (curSents ++ [s.text])
          (curEmbs ++ [s.emb]) (curLen + s.tokens)
      else
        chunkLoop sim maxTokens threshold rest
          (chunks ++ [" ".intercalate curSents]) [s.text] [s.emb] s.tokens

/-- `SemanticChunker.semantic_chunk_text` (lines 71–126): no sentences yield
no chunks; otherwise the first sentence seeds the current chunk and the loop
processes the rest. -/
def semantic_chunk_text (sim : List (List ℚ) → List ℚ → ℚ)
    (sents : List Sent) (maxTokens : ℕ) (threshold : ℚ) : List String :=
  match sents with
  | [] => []
  | s0 :: rest => chunkLoop sim maxTokens threshold rest [] [s0.text] [s0.emb] s0.tokens

/-- Componentwise sum of equal-length vectors. -/
def vecSum : List (List ℚ) → List ℚ
  | [] => []
  | [v] => v
  | v :: rest => List.zipWith (· + ·) v (vecSum rest)

/-- `torch.mean(dim=0)` over a list of vectors. -/
def vecMean (l : List (List ℚ)) : List ℚ :=
  (vecSum l).map (· / (l.length : ℚ))

/-- Exact cosine similarity for one-dimensional embeddings (the general
cosine needs square roots; in dimension one it is rational). -/
def cosine1 (u v : List ℚ) : ℚ :=
  (u.headD 0 * v.headD 0) / (|u.headD 0| * |v.headD 0|)

/-- The similarity oracle realised by an embedding capability producing
one-dimensional vectors: cosine of the candidate against the chunk mean. -/
def meanCosine1 (embs : List (List ℚ)) (cand : List ℚ) : ℚ :=
  cosine1 cand (vecMean embs)

/-- C5 counterexample: an embedding capability may produce vectors with
negative cosine similarity (here [1] and [-1], cosine exactly −1), and then
`semantic_chunk_text` with `similarity_threshold = 0` and an ample token
budget still splits: `−1 ≥ 0` fails, so two chunks come back, not one. -/
theorem C5_counterexample :
    semantic_chunk_text meanCosine1
        [⟨"s one", 1, [1]⟩, ⟨"s two", 1, [-1]⟩] 1000000 0
      = ["s one", "s two"]
    ∧ (semantic_chunk_text meanCosine1
        [⟨"s one", 1, [1]⟩, ⟨"s two", 1, [-1]⟩] 1000000 0).length ≠ 1 := by
  have hcos : meanCosine1 [[1]] [(-1 : ℚ)] = -1 := by
    norm_num [meanCosine1, cosine1, vecMean, vecSum]
  have hsplit : semantic_chunk_text meanCosine1
      [⟨"s one", 1, [1]⟩, ⟨"s two", 1, [-1]⟩] 1000000 0 = ["s one", "s two"] := by
    simp only [semantic_chunk_text, chunkLoop]
    rw [if_neg]
    · rfl
    · rw [hcos]
      norm_num
  refine ⟨hsplit, ?_⟩
  rw [hsplit]
  decide

theorem chunkLoop_merge (sim : List (List ℚ) → List ℚ → ℚ) (maxTokens : ℕ)
    (hsim : ∀ embs cand, 0 ≤ sim embs cand) :
    ∀ (rest : List Sent) (chunks curSents : List String)
      (curEmbs : List (List ℚ)) (curLen : ℕ),
      curSents ≠ [] →
      curLen + (rest.map Sent.tokens).sum ≤ maxTokens →
      chunkLoop sim maxTokens 0 rest chunks curSents curEmbs curLen
        = chunks ++ [" ".intercalate (curSents ++ rest.map Sent.text)] := by
  intro rest
  induction rest with
  | nil =>
      intro chunks curSents curEmbs curLen hcs _
      simp [chunkLoop, hcs]
  | cons s rest ih =>
      intro chunks curSents curEmbs curLen hcs hbud
      rw [List.map_cons, List.sum_cons] at hbud
      have hcond : curLen + s.tokens ≤ maxTokens ∧ sim curEmbs s.emb ≥ 0 :=
        ⟨by omega, hsim _ _⟩
      show (if curLen + s.tokens ≤ maxTokens ∧ sim curEmbs s.emb ≥ 0 then
              chunkLoop sim maxTokens 0 rest chunks (curSents ++ [s.text])
                (curEmbs ++ [s.emb]) (curLen + s.tokens)
            else chunkLoop sim maxTokens 0 rest
              (chunks ++ [" ".intercalate curSents]) [s.text] [s.emb] s.tokens) = _
      rw [if_pos hcond, ih _ _ _ _ (by simp) (by omega)]
      simp [List.append_assoc]

/-- C5, amended: with `similarity_threshold = 0`, a token budget at least the
total token count, and a similarity oracle that never goes negative (true
cosine similarity can be negative — see the counterexample — so this
restriction on the embedding capability is what the claim needs),
`semantic_chunk_text` returns exactly one chunk containing every sentence of
the input in order. -/
theorem C5_amended (sim : List (List ℚ) → List ℚ → ℚ) (maxTokens : ℕ)
    (sents : List Sent) (hne : sents ≠ [])
    (hsim : ∀ embs cand, 0 ≤ sim embs cand)
    (hbudget : (sents.map Sent.tokens).sum ≤ maxTokens) :
    semantic_chunk_text sim sents maxTokens 0
      = [" ".intercalate (sents.map Sent.text)] := by
  cases sents with
  | nil => exact absurd rfl hne
  | cons s0 rest =>
      rw [List.map_cons, List.sum_cons] at hbudget
      show chunkLoop sim maxTokens 0 rest [] [s0.text] [s0.emb] s0.tokens = _
      rw [chunkLoop_merge sim maxTokens hsim rest [] [s0.text] [s0.emb] s0.tokens
          (by simp) (by omega)]
      simp

/-- Witness for C5 at a concrete input: two sentences under a constant-1
similarity oracle merge into one chunk. -/
theorem C5_amended_witness :
    semantic_chunk_text (fun _ _ => 1)
        [⟨"a", 1, []⟩, ⟨"b", 1, []⟩] 10 0 = ["a b"] :=
  C5_amended (fun _ _ => 1) 10 [⟨"a", 1, []⟩, ⟨"b", 1, []⟩]
    (by decide) (fun _ _ => zero_le_one) (by decide)

/-! ## C7: `PromptEnhancer` empty-corpus behaviour -/

/-- Stable descending insertion used to model `torch.topk`. -/
def insertDesc (scores : List ℚ) (i : ℕ) : List ℕ → List ℕ
  | [] => [i]
  | j :: rest =>
      if scores.getD j 0 ≥ scores.getD i 0 then j :: insertDesc scores i rest
      else i :: j :: rest

/-- `torch.topk(scores, k).indices.tolist()`: the indices of the `k` largest
scores, in descending score order (ties kept in original position order). -/
def topkIndices (scores : List ℚ) (k : ℕ) : List ℕ :=
  ((List.range scores.length).foldl (fun acc i => insertDesc scores i acc) []).take k

/-- `PromptEnhancer.format_triplet_natural` (lines 38–54): naive verb
agreement before rendering the triplet as a sentence. -/
def format_triplet_natural (t : String × String × String) : String :=
  let subj := t.1
  let verb := t.2.1
  let obj := t.2.2
  let verb' :=
    if ¬ verb.endsWith "s" ∧ subj.toLower ∉ ["i", "you", "we", "they"] then
      verb ++ "s"
    else verb
  subj ++ " " ++ verb' ++ " " ++ obj

/-- The dictionary returned by `enhance_with_rag`. -/
structure RagResult where
  enhanced_prompt : String
  retrieved_chunks : List String
  chunk_scores : List ℚ
  deriving DecidableEq, Repr

/-- The dictionary returned by `enhance_with_kag`. -/
structure KagResult where
  enhanced_prompt : String
  selected_triplets : List (String × String × String)
  triplet_scores : List ℚ
  deriving DecidableEq, Repr

/-- The dictionary returned by `enhance_with_kag_rag`. -/
structure KagRagResult where
  enhanced_prompt : String
  kag_info : KagResult
  rag_info : RagResult
  deriving DecidableEq, Repr

/-- `PromptEnhancer.enhance_with_rag` (lines 56–107), parametrised by the
promptns-chunk similarity `sim` (the embedding capability consumed through
cosine similarity) and by the chunk list the semantic chunker produced from
the document text (empty exactly when the document has no sentences).  The
code has no empty-corpus guard: the template prompt is always built.  (With
an empty chunk list the real sentence-transformers stack would raise inside
`encode`/`torch.stack`; either way the result is never the unmodified
original query.) -/
def enhance_with_rag (sim : String → String → ℚ) (prompt : String)
    (text_chunks : List String) (top_k : ℕ) : RagResult :=
  let chunk_scores := text_chunks.map (sim prompt)
  let top_indices := topkIndices chunk_scores (min top_k text_chunks.length)
  let retrieved_chunks := top_indices.map (fun i => text_chunks.getD i "")
  let retrieved_scores := top_indices.map (fun i => chunk_scores.getD i 0)
  let rag_context :=
    "\n\n".intercalate (retrieved_chunks.map (fun c => "\"" ++ c.trim ++ "\""))
  let enhanced_prompt :=
    "Vous êtes un assistant répondant uniquement sur la base des informations fournies dans le document.\n\nPreuves contextuelles du document:\n"
      ++ rag_context ++ "\n\nMaintenant, répondez à la question: " ++ prompt ++ "\n"
  ⟨enhanced_prompt, retrieved_chunks, retrieved_scores⟩

/-- `PromptEnhancer.enhance_with_kag` (lines 109–169): an explicit guard
returns the unmodified prompt with empty lists when no triplets were
extracted; otherwise renders the top triplets into the KAG template. -/
def enhance_with_kag (sim : String → String → ℚ) (prompt : String)
    (all_triplets : List (String × String × String)) (max_triplets : ℕ) :
    KagResult :=
  if all_triplets = [] then
    ⟨prompt, [], []⟩
  else
    let triplet_sentences :=
      all_triplets.map (fun t => t.1 ++ " " ++ t.2.1 ++ " " ++ t.2.2)
    let cos_scores := triplet_sentences.map (sim prompt)
    let top_k := min max_triplets cos_scores.length
    let top_indices := topkIndices cos_scores top_k
    let selected_triplets := top_indices.map (fun i => all_triplets.getD i ("", "", ""))
    let triplet_scores := top_indices.map (fun i => cos_scores.getD i 0)
    let triplet_text := "\n".intercalate (selected_triplets.map
      (fun t => "- Le document indique que " ++ format_triplet_natural t ++ "."))
    let enhanced_prompt :=
      "Vous êtes un assistant répondant uniquement sur la base des informations fournies dans le document.\n\nFaits structurés extraits du document:\n"
        ++ triplet_text ++ "\n\nMaintenant, répondez à la question: " ++ prompt ++ "\n"
    ⟨enhanced_prompt, selected_triplets, triplet_scores⟩

/-- `PromptEnhancer.enhance_with_kag_rag` (lines 171–217): runs both
enhancements and rebuilds both evidence blocks into a combined template. -/
def enhance_with_kag_rag (sim : String → String → ℚ) (prompt : String)
    (all_triplets : List (String × String × String)) (text_chunks : List String)
    (max_triplets top_k_chunks : ℕ) : KagRagResult :=
  let kag_result := enhance_with_kag sim prompt all_triplets max_triplets
  let rag_result := enhance_with_rag sim prompt text_chunks top_k_chunks
  let triplet_text := "\n".intercalate (kag_result.selected_triplets.map
    (fun t => "- Le document indique que " ++ format_triplet_natural t ++ "."))
  let rag_context := "\n\n".intercalate (rag_result.retrieved_chunks.map
    (fun c => "\"" ++ c.trim ++ "\""))
  let enhanced_prompt :=
    "Vous êtes un assistant répondant uniquement sur la base des informations fournies dans le document.\n\nFaits structurés extraits du document:\n"
      ++ triplet_text ++ "\n\nPreuves contextuelles du document:\n"
      ++ rag_context ++ "\n\nMaintenant, répondez à la question: " ++ prompt ++ "\n"
  ⟨enhanced_prompt, kag_result, rag_result⟩

/-- C7 counterexample: with an empty chunk corpus the RAG path still wraps
the query in the evidence template, so the "enhanced" output differs from
the unmodified original query "Q". -/
theorem C7_counterexample :
    (enhance_with_rag (fun _ _ => 0) "Q" [] 3).enhanced_prompt ≠ "Q" := by
  decide

theorem template_ne_prompt (a b c : String) (prompt : String)
    (ha : 0 < a.length) : a ++ b ++ c ++ prompt ++ "\n" ≠ prompt := by
  intro heq
  have hl := congrArg String.length heq
  rw [String.length_append, String.length_append, String.length_append,
      String.length_append] at hl
  omega

theorem pos_length_append3 (a u v : String) (h : 0 < a.length) :
    0 < (a ++ u ++ v).length := by
  rw [String.length_append, String.length_append]
  omega

set_option maxRecDepth 16384 in
/-- C7, amended: on an empty evidence corpus only the relation-evidence
(KAG) mode degenerates to the unmodified original query with empty evidence
and score lists; the chunk-evidence (RAG) mode and the combined mode return
empty retrieved/score lists but still wrap the query in their templates
(with an empty evidence block), so their enhanced output never equals the
original query. -/
theorem C7_amended (sim : String → String → ℚ) (prompt : String)
    (max_triplets top_k : ℕ) :
    enhance_with_kag sim prompt [] max_triplets = ⟨prompt, [], []⟩
    ∧ (enhance_with_rag sim prompt [] top_k).retrieved_chunks = []
    ∧ (enhance_with_rag sim prompt [] top_k).chunk_scores = []
    ∧ (enhance_with_rag sim prompt [] top_k).enhanced_prompt ≠ prompt
    ∧ (enhance_with_kag_rag sim prompt [] [] max_triplets top_k).enhanced_prompt
        ≠ prompt := by
  have hidx : topkIndices (([] : List String).map (sim prompt))
      (min top_k ([] : List String).length) = [] := by
    simp [topkIndices]
  have h2 : (enhance_with_rag sim prompt [] top_k).retrieved_chunks = [] := by
    show (topkIndices (([] : List String).map (sim prompt))
        (min top_k ([] : List String).length)).map _ = []
    rw [hidx]
    rfl
  have h3 : (enhance_with_rag sim prompt [] top_k).chunk_scores = [] := by
    show (topkIndices (([] : List String).map (sim prompt))
        (min top_k ([] : List String).length)).map _ = []
    rw [hidx]
    rfl
  refine ⟨rfl, h2, h3, ?_, ?_⟩
  · exact template_ne_prompt _ _ _ prompt (by decide)
  · exact template_ne_prompt _ _ _ prompt (pos_length_append3 _ _ _ (by decide))

/-! ## C8: the multi-level synthesis pipeline (src/test_pdf_extraction.py) -/

/-- A context triplet flowing through the pipeline: the dict produced by
`extract_triplets_with_context` plus the `level` tag the loop adds. -/
structure TripletX where
  subject : String
  relation : String
  object : String
  sentence : String
  confidence : Option ℚ
  level : ℕ
  deriving DecidableEq, Repr

/-- Render a rational with two decimal places (`f"{...:.2f}"`). -/
def fmt2 (q : ℚ) : String :=
  let n : ℤ := round (q * 100)
  let sign := if n < 0 then "-" else ""
  let m := n.natAbs
  sign ++ toString (m / 100) ++ "."
    ++ (if m % 100 < 10 then "0" else "") ++ toString (m % 100)

/-- Confidence formatting.  (For a `None` confidence the Python f-string
would raise `TypeError`; no theorem below reaches this rendering at all —
the claims only exercise the pipeline with empty extraction results.) -/
def fmtConf : Option ℚ → String
  | some q => fmt2 q
  | none => "None"

/-- `format_triplets_for_next_level` (lines 50–58 of
src/test_pdf_extraction.py): the digest document fed to the next level. -/
def format_triplets_for_next_level (triplets : List TripletX)
    (current_level : ℕ) : String :=
  let header := "Voici une liste de faits extraits (Niveau "
    ++ toString current_level ++ ") :\n\n"
  let body := String.join ((List.enumFrom 1 triplets).map (fun it =>
    toString it.1 ++ ". " ++ it.2.subject ++ " --[" ++ it.2.relation ++ "]--> "
      ++ it.2.object ++ " (Confidence: " ++ fmtConf it.2.confidence
      ++ ", Sentence: \"" ++ it.2.sentence.trim ++ "\")\n"))
  header ++ body ++ "\nExtrayez des relations de niveau supérieur entre ces faits.\n"

/-- `split_text` (lines 20–48 of src/test_pdf_extraction.py): period-based
splitting with a `len(sentence) // 4` token estimate. -/
def split_text (text : String) (maxTokens : ℕ) : List String :=
  let sentences := text.splitOn ". "
  let step := fun (st : List String × List String × ℕ) (sentence : String) =>
    let chunks := st.1
    let current_chunk := st.2.1
    let current_length := st.2.2
    let sentence_length := sentence.length / 4
    if current_length + sentence_length + 1 > maxTokens then
      (if current_chunk ≠ [] then
         chunks ++ [". ".intercalate current_chunk ++ "."]
       else chunks, [sentence], sentence_length)
    else
      (chunks, current_chunk ++ [sentence], current_length + sentence_length + 1)
  let fin := sentences.foldl step ([], [], 0)
  if fin.2.1 ≠ [] then fin.1 ++ [". ".intercalate fin.2.1 ++ "."] else fin.1

/-- The level loop of `main` (lines 97–147 of src/test_pdf_extraction.py),
parametrised by the extraction capability `extract`
(`extractor.extract_triplets_with_context`, an external LLM call).  Besides
the accumulated triplets it returns a log of every extraction call as a
(level, chunk) pair.  `fuel` bounds the remaining iterations of
`for current_level in range(1, max_level + 1)`; `input = none` and
`input = some ""` both model a falsy `current_input`. -/
def runLevels (extract : String → List TripletX) (maxLevel : ℕ) :
    ℕ → ℕ → Option String → List TripletX → List (ℕ × String)
      → List TripletX × List (ℕ × String)
  | 0, _, _, acc, log => (acc, log)
  | fuel + 1, level, input, acc, log =>
      if level > maxLevel then (acc, log)
      else
        match input with
        | none => (acc, log)
        | some txt =>
            if txt = "" then (acc, log)
            else
              let chunks := if level > 1 then [txt] else split_text txt 2000
              let newTs := chunks.flatMap
                (fun c => (extract c).map (fun t => { t with level := level }))
              let acc' := acc ++ newTs
              let log' := log ++ chunks.map (fun c => (level, c))
              if newTs = [] ∧ level < maxLevel then (acc', log')
              else
                runLevels extract maxLevel fuel (level + 1)
                  (if level < maxLevel then
                     some (format_triplets_for_next_level newTs level)
                   else none) acc' log'

/-- The whole multi-level extraction of `main`. -/
def run_extraction_pipeline (extract : String → List TripletX) (maxLevel : ℕ)
    (text : String) : List TripletX × List (ℕ × String) :=
  runLevels extract maxLevel (maxLevel + 1) 1 (some text) [] []

/-- C8: when level 1 yields zero triplets and `maxLevel > 1`, the pipeline
halts early — the final combined result is empty and every extraction call
that was made belongs to level 1 (no level-2 call occurs). -/
theorem C8_early_halt (extract : String → List TripletX) (maxLevel : ℕ)
    (text : String) (hmax : 1 < maxLevel)
    (hempty : ∀ c ∈ split_text text 2000, extract c = []) :
    (run_extraction_pipeline extract maxLevel text).1 = []
    ∧ ∀ p ∈ (run_extraction_pipeline extract maxLevel text).2, p.1 = 1 := by
  unfold run_extraction_pipeline
  rw [runLevels]
  rw [if_neg (by omega : ¬ (1 > maxLevel))]
  by_cases htxt : text = ""
  · rw [if_pos htxt]
    exact ⟨rfl, by intro p hp; cases hp⟩
  · rw [if_neg htxt]
    simp only [show ¬ ((1 : ℕ) > 1) from by omega, if_false, ite_false]
    have hnew : (split_text text 2000).flatMap
        (fun c => (extract c).map (fun t => { t with level := 1 })) = [] := by
      rw [List.flatMap_eq_nil_iff]
      intro c hc
      rw [hempty c hc]
      rfl
    rw [hnew]
    rw [if_pos ⟨rfl, hmax⟩]
    refine ⟨by simp, ?_⟩
    intro p hp
    simp only [List.append_nil, List.nil_append] at hp
    rcases List.mem_map.mp hp with ⟨c, -, rfl⟩
    rfl

/-- Witness for C8 at a concrete input: an extractor that returns nothing,
two levels, a non-empty text. -/
theorem C8_early_halt_witness :
    (run_extraction_pipeline (fun _ => []) 2 "hello").1 = []
    ∧ ∀ p ∈ (run_extraction_pipeline (fun _ => []) 2 "hello").2, p.1 = 1 :=
  C8_early_halt (fun _ => []) 2 "hello" (by omega) (fun _ _ => rfl)

/-! ## C9: `extract_triplets_with_context` response parsing -/

/-- A parsed JSON value — the shapes `json.loads` can produce. -/
inductive Json where
  | null
  | bool (b : Bool)
  | num (q : ℚ)
  | str (s : String)
  | arr (l : List Json)
  | obj (l : List (String × Json))

/-- `key in t` / `t.get(key)` on a parsed JSON object: `json.loads` builds a
Python dict, keeping the *last* occurrence of a duplicated key. -/
def jsonGet? (kvs : List (String × Json)) (k : String) : Option Json :=
  (kvs.reverse.find? (fun p => p.1 == k)).map Prod.snd

/-- Python `str.find(ch)`: index of the first occurrence, or −1. -/
def pyFind (cs : List Char) (c : Char) : Int :=
  match cs.findIdx? (fun x => x == c) with
  | some i => (i : Int)
  | none => -1

/-- Python `str.rfind(ch)`: index of the last occurrence, or −1. -/
def pyRFind (cs : List Char) (c : Char) : Int :=
  match cs.reverse.findIdx? (fun x => x == c) with
  | some i => (cs.length : Int) - 1 - (i : Int)
  | none => -1

/-- `response[a:b]` for the in-range indices produced below. -/
def pySlice (cs : List Char) (a b : Int) : List Char :=
  (cs.take b.toNat).drop a.toNat

/-- Lines 143–145 of triplet_extractor.py: the candidate JSON region
`response[response.find('[') : response.rfind(']') + 1]`, or `none` when
the guard `json_start >= 0 and json_end > json_start` fails. -/
def jsonRegion (response : String) : Option String :=
  let cs := response.data
  let json_start := pyFind cs '['
  let json_end := pyRFind cs ']' + 1
  if json_start ≥ 0 ∧ json_end > json_start then
    some (String.mk (pySlice cs json_start json_end))
  else none

/-- The per-triplet record of lines 154–160: the raw JSON field values, with
`sentence` defaulting to `""` and `confidence` defaulting to Python `None`
(JSON `null` and an absent key are indistinguishable after `json.loads`). -/
structure TripletCtx where
  subject : Json
  relation : Json
  object : Json
  sentence : Json
  confidence : Json

/-- The acceptance test of line 152 plus the record construction: keep `t`
only when it is an object carrying `subject`, `relation` and `object`. -/
def validTriplet? (t : Json) : Option TripletCtx :=
  match t with
  | .obj kvs =>
      match jsonGet? kvs "subject", jsonGet? kvs "relation", jsonGet? kvs "object" with
      | some s, some r, some o =>
          some ⟨s, r, o, (jsonGet? kvs "sentence").getD (.str ""),
                (jsonGet? kvs "confidence").getD .null⟩
      | _, _, _ => none
  | _ => none

/-- The accumulation loop of lines 150–163 as written: append each accepted
triplet, skip (with a warning) the rest. -/
def validLoop : List Json → List TripletCtx → List TripletCtx
  | [], acc => acc
  | t :: ts, acc =>
      match validTriplet? t with
      | some v => validLoop ts (acc ++ [v])
      | none => validLoop ts acc

/-- `TripletExtractor.extract_triplets_with_context` (lines 113–176),
parametrised by the raw completion (`none` models the `None` the NVIDIA
client returns for empty model output, handled at lines 126–128) and by
`parse`, modelling `json.loads` (`none` = `JSONDecodeError`, caught at lines
170–176).  A real `json.loads` succeeding on a region that starts with `[`
always yields an array, so a non-array `some` result is unreachable; it is
mapped to the empty list. -/
def extract_triplets_with_context (parse : String → Option Json)
    (response? : Option String) : List TripletCtx :=
  match response? with
  | none => []
  | some response =>
      match jsonRegion response with
      | none => []
      | some region =>
          match parse region with
          | some (.arr ts) => validLoop ts []
          | _ => []

/-- Modelled from the spec's words (§4.4, §6): of a parsed JSON array,
exactly the objects having `subject`, `relation` and `object` fields are
kept, with `sentence` defaulting to the empty string and `confidence`
defaulting to absent. -/
def specKeptTriplets (ts : List Json) : List TripletCtx :=
  ts.filterMap validTriplet?

theorem validLoop_eq_filterMap (ts : List Json) (acc : List TripletCtx) :
    validLoop ts acc = acc ++ ts.filterMap validTriplet? := by
  induction ts generalizing acc with
  | nil => simp [validLoop]
  | cons t ts ih =>
      show (match validTriplet? t with
            | some v => validLoop ts (acc ++ [v])
            | none => validLoop ts acc) = _
      cases h : validTriplet? t with
      | some v => simp [ih, List.filterMap_cons, h]
      | none => simp [ih, List.filterMap_cons, h]

theorem jsonRegion_eq_none_of_no_bracket (response : String)
    (h : '[' ∉ response.data) : jsonRegion response = none := by
  unfold jsonRegion pyFind
  have hfind : response.data.findIdx? (fun x => x == '[') = none := by
    rw [List.findIdx?_eq_none_iff]
    intro x hx
    simp only [beq_eq_false_iff_ne]
    intro he
    exact h (he ▸ hx)
  simp only [hfind]
  rw [if_neg]
  intro hc
  omega

/-- C9: the parsing of raw completions is total and validates shapes: a
`None`/empty response, a response with no `[`…`]` region, and an unparsable
region all yield the empty triplet list without raising; a parsable JSON
array yields exactly the objects carrying `subject`, `relation` and
`object` (others are discarded), with `sentence` defaulting to `""` and
`confidence` defaulting to absent. -/
theorem C9_parse_robustness (parse : String → Option Json) (response : String)
    (ts : List Json) :
    extract_triplets_with_context parse none = []
    ∧ ('[' ∉ response.data →
        extract_triplets_with_context parse (some response) = [])
    ∧ (∀ region, jsonRegion response = some region → parse region = none →
        extract_triplets_with_context parse (some response) = [])
    ∧ (∀ region, jsonRegion response = some region →
        parse region = some (.arr ts) →
        extract_triplets_with_context parse (some response)
          = specKeptTriplets ts) := by
  refine ⟨rfl, ?_, ?_, ?_⟩
  · intro h
    show (match jsonRegion response with
          | none => []
          | some region =>
              match parse region with
              | some (.arr ts) => validLoop ts []
              | _ => []) = ([] : List TripletCtx)
    rw [jsonRegion_eq_none_of_no_bracket response h]
  · intro region hr hp
    show (match jsonRegion response with
          | none => []
          | some region =>
              match parse region with
              | some (.arr ts) => validLoop ts []
              | _ => []) = ([] : List TripletCtx)
    simp only [hr, hp]
  · intro region hr hp
    show (match jsonRegion response with
          | none => []
          | some region =>
              match parse region with
              | some (.arr ts) => validLoop ts []
              | _ => []) = specKeptTriplets ts
    simp only [hr, hp]
    rw [validLoop_eq_filterMap, List.nil_append]
    rfl

/-- A concrete `json.loads` oracle for exercising the parser: it parses
exactly the region "[y]" into a two-element array (one valid triplet
object, one junk string) and fails on everything else. -/
def parseProbe : String → Option Json :=
  fun s =>
    if s = "[y]" then
      some (.arr [.obj [("subject", .str "s"), ("relation", .str "r"),
                        ("object", .str "o")],
                  .str "junk"])
    else none

/-- Witness for C9 at concrete inputs: a `None` response, a bracketless
response, an unparsable region, and a parsable array with one valid and one
invalid element. -/
theorem C9_parse_robustness_witness :
    extract_triplets_with_context parseProbe none = []
    ∧ extract_triplets_with_context parseProbe (some "no brackets") = []
    ∧ extract_triplets_with_context parseProbe (some "a[b]") = []
    ∧ extract_triplets_with_context parseProbe (some "x[y]z")
        = specKeptTriplets [.obj [("subject", .str "s"), ("relation", .str "r"),
                                  ("object", .str "o")],
                           .str "junk"] :=
  ⟨(C9_parse_robustness parseProbe "" []).1,
   (C9_parse_robustness parseProbe "no brackets" []).2.1 (by decide),
   (C9_parse_robustness parseProbe "a[b]" []).2.2.1 "[b]" (by rfl) (by rfl),
   (C9_parse_robustness parseProbe "x[y]z"
       [.obj [("subject", .str "s"), ("relation", .str "r"),
              ("object", .str "o")],
        .str "junk"]).2.2.2 "[y]" (by rfl) (by rfl)⟩
